import Mathlib

set_option maxHeartbeats 1000000

namespace ScanApp

/-!
Verification of the QR-redemption backend.

The handler code manipulates JavaScript strings; we embed a JS string as a
list of characters and model the exact operations the source uses:
`split` with a one-character separator, `trim`, `startsWith`, and
`parseInt`.
-/

/-- A JavaScript string, embedded as its character list. -/
abbrev JStr := List Char

/-- The whitespace characters stripped by JS `trim` (restricted to the
ASCII range, which covers every payload character class the handler
meets: space, tab, newline, carriage return, vertical tab, form feed). -/
def jsWhitespaceChar (c : Char) : Bool :=
  c == ' ' || c == '\t' || c == '\n' || c == '\r' || c == '\x0b' || c == '\x0c'

/-- Left half of JS `trim`. -/
def trimLeftChars (l : JStr) : JStr := l.dropWhile jsWhitespaceChar

/-- Right half of JS `trim`. -/
def trimRightChars (l : JStr) : JStr := (l.reverse.dropWhile jsWhitespaceChar).reverse

/-- JS `s.trim()`. -/
def trimChars (l : JStr) : JStr := trimRightChars (trimLeftChars l)

/-- JS `s.split(sep)` for a one-character separator:
`"a:b:c".split(':')` is `["a","b","c"]` and `"".split(':')` is `[""]`. -/
def splitOnChar (sep : Char) : JStr → List JStr
  | [] => [[]]
  | c :: cs =>
    if c == sep then [] :: splitOnChar sep cs
    else
      match splitOnChar sep cs with
      | [] => [[c]]
      | s :: ss => (c :: s) :: ss

/-- ASCII decimal digit test. -/
def isDecDigit (c : Char) : Bool := 48 ≤ c.toNat && c.toNat ≤ 57

/-- ASCII hexadecimal digit test. -/
def isHexDigit (c : Char) : Bool :=
  isDecDigit c || (97 ≤ c.toNat && c.toNat ≤ 102) || (65 ≤ c.toNat && c.toNat ≤ 70)

/-- Numeric value of a hexadecimal digit character. -/
def hexDigitVal (c : Char) : Nat :=
  if isDecDigit c then c.toNat - 48
  else if 97 ≤ c.toNat then c.toNat - 87
  else c.toNat - 55

/-- JS `parseInt(s)` with no radix argument: skip leading whitespace, read
an optional sign, switch to hexadecimal after a `0x`/`0X` prefix, then
take the longest digit prefix; `none` models the `NaN` result when no
digit is found.  Trailing non-digit characters are ignored, exactly as in
JS. -/
def jsParseInt (s : JStr) : Option Int :=
  let s1 := s.dropWhile jsWhitespaceChar
  let signed : Bool × JStr :=
    match s1 with
    | '-' :: r => (true, r)
    | '+' :: r => (false, r)
    | _ => (false, s1)
  let hexed : Bool × JStr :=
    match signed.2 with
    | '0' :: c :: r => if c == 'x' || c == 'X' then (true, r) else (false, signed.2)
    | _ => (false, signed.2)
  let digits := hexed.2.takeWhile (fun c => if hexed.1 then isHexDigit c else isDecDigit c)
  if digits.isEmpty then none
  else
    let base : Nat := if hexed.1 then 16 else 10
    let v : Nat := digits.foldl (fun a c => base * a + hexDigitVal c) 0
    if signed.1 then some (-(v : Int)) else some (v : Int)

/-! ## The scan-payload parser

Embeds the parsing block of the `POST /api/scan-qr` handler: split the
payload on newlines, locate the first line whose trimmed form starts with
each required label, extract each value as the second colon-separated
segment of its line, trim it, and `parseInt` the points value, rejecting
`NaN` and values `≤ 0`. -/

/-- The `'QR ID:'` label literal of the handler. -/
def qrLabel : JStr := "QR ID:".toList

/-- The `'Batch ID:'` label literal of the handler. -/
def batchLabel : JStr := "Batch ID:".toList

/-- The `'Points:'` label literal of the handler. -/
def ptsLabel : JStr := "Points:".toList

/-- `line.trim().startsWith(label)`, the line test used with `lines.find`. -/
def hasLabel (label : JStr) (line : JStr) : Bool := label.isPrefixOf (trimChars line)

/-- `line.split(':')[1].trim()`: the second colon-separated segment of the
line, trimmed.  Returns `none` when the line has no second segment — in
the source that access would throw and be caught as a malformed payload;
it cannot actually occur on a line that matched a label, since every
label contains a colon. -/
def fieldValue (line : JStr) : Option JStr :=
  match (splitOnChar ':' line)[1]? with
  | none => none
  | some v => some (trimChars v)

/-- The parser on the already-split line list. -/
def parseLines (lines : List JStr) : Option (JStr × JStr × Int) :=
  match lines.find? (hasLabel qrLabel), lines.find? (hasLabel batchLabel),
        lines.find? (hasLabel ptsLabel) with
  | some lq, some lb, some lp =>
    match fieldValue lq, fieldValue lb, fieldValue lp with
    | some qv, some bv, some pv =>
      match jsParseInt pv with
      | none => none
      | some n => if n ≤ 0 then none else some (qv, bv, n)
    | _, _, _ => none
  | _, _, _ => none

/-- The scan-payload parser of the handler (lines 418–444 of the route):
`none` models the `MalformedPayload` rejection; no partial result is ever
produced. -/
def parseQRData (qrData : JStr) : Option (JStr × JStr × Int) :=
  parseLines (splitOnChar '\n' qrData)

/-! ## Data model and store

The Mongo collections the redemption subsystem touches, with the fields
the handlers read or write. -/

/-- A QR code entry embedded in a batch (`QRItemSchema`). -/
structure QRItem where
  qrId : JStr
  qrCodeUrl : JStr
  isScanned : Bool
  deriving DecidableEq, Repr

/-- A QR batch record (`QRBatchSchema`), restricted to the fields the
redemption path reads: the unique `batchId`, the `isActive` gate, and the
embedded code list. -/
structure QRBatchRec where
  batchId : JStr
  isActive : Bool
  qrCodes : List QRItem
  deriving DecidableEq, Repr

/-- A customer record (`CustomerSchema`), restricted to the fields the
point-affecting handlers read: the document id, the display fields echoed
in responses, and the points balance. -/
structure CustomerRec where
  id : JStr
  name : JStr
  username : JStr
  points : Int
  deriving DecidableEq, Repr

/-- The persistent record store. -/
structure Store where
  customers : List CustomerRec
  batches : List QRBatchRec
  deriving DecidableEq, Repr

/-- Replace the first element satisfying `p` by its image under `g`,
modelling a single-document Mongo update or an in-place mutation of the
first `Array.prototype.find` hit. -/
def updateFirst {α : Type} (p : α → Bool) (g : α → α) : List α → List α
  | [] => []
  | x :: xs => if p x then g x :: xs else x :: updateFirst p g xs

/-- Outcome of one `POST /api/scan-qr` request. -/
inductive RedeemResult where
  | missingQrData
  | malformedPayload
  | batchNotFound
  | codeNotFound
  | alreadyRedeemed
  | customerNotFound
  | success (pointsEarned totalPoints : Int) (qrId batchId : JStr)
  deriving DecidableEq, Repr

/-- `{ ...q, isScanned: true }`: the one-time-use commit on a code entry. -/
def setScanned (q : QRItem) : QRItem := { q with isScanned := true }

/-- Add `pts` to a customer's balance. -/
def incPts (pts : Int) (c : CustomerRec) : CustomerRec := { c with points := c.points + pts }

/-- `Customer.findByIdAndUpdate(id, { $inc: { points } }, { new: true })`:
an atomic counter bump that returns the updated document, or `none` with
the store untouched when no customer has that id. -/
def findByIdAndIncPoints (st : Store) (userId : JStr) (pts : Int) :
    Option CustomerRec × Store :=
  match st.customers.find? (fun c => c.id == userId) with
  | none => (none, st)
  | some c =>
    (some (incPts pts c),
     { st with customers := updateFirst (fun d => d.id == userId) (incPts pts) st.customers })

/-- `qrCode.isScanned = true; await qrBatch.save()`: persist the loaded
batch (the first one matching `batchId` with `isActive`) with the first
code matching `qrId` marked scanned. -/
def markScanned (st : Store) (bId qrId : JStr) : Store :=
  { st with
    batches := updateFirst (fun b => b.batchId == bId && b.isActive)
      (fun b => { b with qrCodes := updateFirst (fun q => q.qrId == qrId) setScanned b.qrCodes })
      st.batches }

/-- The read half of the handler, up to and including the `isScanned`
check: everything before the first write.  Models lines 405–478 of the
route. -/
def loadPhase (st : Store) (qrData : JStr) : Except RedeemResult (JStr × JStr × Int) :=
  if qrData = [] then .error .missingQrData
  else
    match parseQRData qrData with
    | none => .error .malformedPayload
    | some (qrId, bId, pts) =>
      match st.batches.find? (fun b => b.batchId == bId && b.isActive) with
      | none => .error .batchNotFound
      | some b =>
        match b.qrCodes.find? (fun q => q.qrId == qrId) with
        | none => .error .codeNotFound
        | some q => if q.isScanned then .error .alreadyRedeemed else .ok (qrId, bId, pts)

/-- The write half of the handler: increment the customer's balance
(rejecting with no further effect when the customer is missing), then
mark the code scanned and save the batch.  Models lines 480–514 of the
route. -/
def commitPhase (st : Store) (userId qrId bId : JStr) (pts : Int) : RedeemResult × Store :=
  match findByIdAndIncPoints st userId pts with
  | (none, st1) => (.customerNotFound, st1)
  | (some c, st1) => (.success pts c.points qrId bId, markScanned st1 bId qrId)

/-- One sequential `POST /api/scan-qr` request. -/
def scanQR (st : Store) (userId : JStr) (qrData : JStr) : RedeemResult × Store :=
  match loadPhase st qrData with
  | .error e => (e, st)
  | .ok (qrId, bId, pts) => commitPhase st userId qrId bId pts

/-- Iterate the state effect of `scanQR` with a fixed caller and payload. -/
def scanIter (userId qrData : JStr) : Nat → Store → Store
  | 0, st => st
  | n + 1, st => scanIter userId qrData n (scanQR st userId qrData).2

/-- The points balance of the customer with the given id. -/
def custBalance (st : Store) (userId : JStr) : Option Int :=
  (st.customers.find? (fun c => c.id == userId)).map (fun c => c.points)

/-- The points balance of the customer with the given username. -/
def custPointsByUsername (st : Store) (username : JStr) : Option Int :=
  (st.customers.find? (fun c => c.username == username)).map (fun c => c.points)

/-- Whether the first active batch with the given id holds a code with the
given qrId that is marked scanned — the redemption path's own view of the
one-time-use flag. -/
def codeScanned (st : Store) (bId qrId : JStr) : Bool :=
  match st.batches.find? (fun b => b.batchId == bId && b.isActive) with
  | none => false
  | some b =>
    match b.qrCodes.find? (fun q => q.qrId == qrId) with
    | none => false
    | some q => q.isScanned

/-! ## The administrative point adjustment

`PATCH /api/customers/:username/points`. -/

/-- The `operation` body field. -/
inductive PointsOp where
  | set
  | add
  | subtract
  deriving DecidableEq, Repr

/-- Outcome of one adjustment request. -/
inductive AdjustResult where
  | customerNotFound
  | ok (previousPoints currentPoints : Int) (op : PointsOp)
  deriving DecidableEq, Repr

/-- The `switch (operation)` computing the new balance: `add` is a plain
sum, `subtract` and `set` clamp at zero via `Math.max(0, ·)`. -/
def newBalance (cur pts : Int) : PointsOp → Int
  | .add => cur + pts
  | .subtract => max 0 (cur - pts)
  | .set => max 0 pts

/-- One `PATCH /api/customers/:username/points` request: look the customer
up by username, compute the new balance, overwrite it with
`findOneAndUpdate`, and echo previous and current balance. -/
def adjustPoints (st : Store) (username : JStr) (pts : Int) (op : PointsOp) :
    AdjustResult × Store :=
  match st.customers.find? (fun c => c.username == username) with
  | none => (.customerNotFound, st)
  | some c =>
    (.ok c.points (newBalance c.points pts op) op,
     { st with
       customers := updateFirst (fun d => d.username == username)
         (fun d => { d with points := newBalance c.points pts op }) st.customers })

/-! ## The system's state-mutating operations -/

/-- The operations of this backend that write to the store: a scan, an
administrative adjustment, and a registration (which appends a customer
and never touches batches). -/
inductive SysOp where
  | scan (userId qrData : JStr)
  | adjust (username : JStr) (pts : Int) (op : PointsOp)
  | register (c : CustomerRec)

/-- State effect of one operation. -/
def applyOp (st : Store) : SysOp → Store
  | .scan u qr => (scanQR st u qr).2
  | .adjust u p op => (adjustPoints st u p op).2
  | .register c => { st with customers := st.customers ++ [c] }

/-- State effect of a sequence of operations. -/
def applyOps (st : Store) (ops : List SysOp) : Store := ops.foldl applyOp st

/-- The entry at position `j` of the code list of the batch at position
`i` of a batch list. -/
def getEntryL (bs : List QRBatchRec) (i j : Nat) : Option QRItem :=
  (bs[i]?).bind (fun b => b.qrCodes[j]?)

/-- The entry at position `(i, j)` of the store's batches. -/
def getEntry (st : Store) (i j : Nat) : Option QRItem := getEntryL st.batches i j

/-- Whether the entry at position `(i, j)` of a batch list exists and is
marked scanned. -/
def scannedAtL (bs : List QRBatchRec) (i j : Nat) : Bool :=
  ((getEntryL bs i j).map (fun q => q.isScanned)).getD false

/-- Whether the entry at position `(i, j)` exists and is marked scanned. -/
def scannedAt (st : Store) (i j : Nat) : Bool := scannedAtL st.batches i j

/-! ## Concurrent interleaving of two scan requests

Each `await` in the handler is a scheduling point of the node event loop;
the handler performs its batch load, its customer increment, and its
batch save as three separate store round-trips.  `twoInterleaved` runs
two requests with the schedule in which both perform their batch load
(and in-memory checks) before either commits — the interleaving the
separate read-then-write calls admit. -/
def twoInterleaved (st : Store) (u1 u2 qr1 qr2 : JStr) :
    RedeemResult × RedeemResult × Store :=
  match loadPhase st qr1, loadPhase st qr2 with
  | .ok (q1, b1, p1), .ok (q2, b2, p2) =>
    let r1 := commitPhase st u1 q1 b1 p1
    let r2 := commitPhase r1.2 u2 q2 b2 p2
    (r1.1, r2.1, r2.2)
  | .error e1, .ok (q2, b2, p2) =>
    let r2 := commitPhase st u2 q2 b2 p2
    (e1, r2.1, r2.2)
  | .ok (q1, b1, p1), .error e2 =>
    let r1 := commitPhase st u1 q1 b1 p1
    (r1.1, e2, r1.2)
  | .error e1, .error e2 => (e1, e2, st)

/-- The claim C7 compares the parser against this spec-side notion,
modelled from the spec's words: a base-10 integer literal is an optional
sign followed by one or more decimal digits and nothing else. -/
def isBase10Int (s : JStr) : Bool :=
  match s with
  | '-' :: r => !r.isEmpty && r.all isDecDigit
  | '+' :: r => !r.isEmpty && r.all isDecDigit
  | _ => !s.isEmpty && s.all isDecDigit

/-! ## Concrete fixtures used by witnesses and counterexamples -/

/-- A customer with a zero balance. -/
def cust0 : CustomerRec :=
  { id := "c1".toList, name := "N".toList, username := "u1".toList, points := 0 }

/-- An unredeemed code. -/
def item0 : QRItem :=
  { qrId := "Q1".toList, qrCodeUrl := "u".toList, isScanned := false }

/-- An active batch holding `item0`. -/
def batch0 : QRBatchRec :=
  { batchId := "B1".toList, isActive := true, qrCodes := [item0] }

/-- A store with one customer and one active batch with one fresh code. -/
def store0 : Store := { customers := [cust0], batches := [batch0] }

/-- The well-formed payload matching `store0`. -/
def payload0 : JStr := "QR ID: Q1\nBatch ID: B1\nPoints: 50".toList

/-! ## List lemmas about `updateFirst` and `find?` -/

/-- If `find?` hits `a` and `g` preserves the predicate, then after
updating the first hit, `find?` returns `g a`. -/
theorem find?_updateFirst_self {α : Type} (p : α → Bool) (g : α → α)
    (hg : ∀ a, p a = true → p (g a) = true) :
    ∀ (l : List α) (a : α), l.find? p = some a → (updateFirst p g l).find? p = some (g a) := by
  intro l
  induction l with
  | nil => intro a h; simp at h
  | cons x xs ih =>
    intro a h
    by_cases hx : p x = true
    · rw [List.find?_cons_of_pos _ hx] at h
      cases h
      simp only [updateFirst, if_pos hx]
      rw [List.find?_cons_of_pos _ (hg x hx)]
    · rw [List.find?_cons_of_neg _ (by simpa using hx)] at h
      simp only [updateFirst, if_neg hx]
      rw [List.find?_cons_of_neg _ (by simpa using hx)]
      exact ih a h

/-- Elementwise view of `updateFirst`: every position holds either the old
element or its image under `g`. -/
theorem updateFirst_getElem? {α : Type} (p : α → Bool) (g : α → α) :
    ∀ (l : List α) (i : Nat),
      (updateFirst p g l)[i]? = l[i]? ∨
      ∃ a, l[i]? = some a ∧ (updateFirst p g l)[i]? = some (g a) := by
  intro l
  induction l with
  | nil => intro i; left; rfl
  | cons x xs ih =>
    intro i
    by_cases hx : p x = true
    · simp only [updateFirst, if_pos hx]
      cases i with
      | zero => right; exact ⟨x, by simp, by simp⟩
      | succ n => left; simp
    · simp only [updateFirst, if_neg hx]
      cases i with
      | zero => left; simp
      | succ n =>
        rcases ih n with h | ⟨a, h1, h2⟩
        · left; simpa using h
        · right; exact ⟨a, by simpa using h1, by simpa using h2⟩

/-- A hit of `find?` in a prefix survives appending more elements. -/
theorem find?_append_some {α : Type} (p : α → Bool) (a : α) :
    ∀ (l1 l2 : List α), l1.find? p = some a → (l1 ++ l2).find? p = some a := by
  intro l1
  induction l1 with
  | nil => intro l2 h; simp at h
  | cons x xs ih =>
    intro l2 h
    by_cases hx : p x = true
    · rw [List.find?_cons_of_pos _ hx] at h
      cases h
      rw [List.cons_append, List.find?_cons_of_pos _ hx]
    · rw [List.find?_cons_of_neg _ (by simpa using hx)] at h
      rw [List.cons_append, List.find?_cons_of_neg _ (by simpa using hx)]
      exact ih l2 h

/-- When all hits of `p` in `l` are the same value, `find?` is invariant
under permutation. -/
theorem find?_perm_of_unique {α : Type} (p : α → Bool) (l l' : List α)
    (hperm : l.Perm l')
    (huniq : ∀ x ∈ l, ∀ y ∈ l, p x = true → p y = true → x = y) :
    l.find? p = l'.find? p := by
  cases hfl : l.find? p with
  | none =>
    cases hfl' : l'.find? p with
    | none => rfl
    | some b =>
      have hb : b ∈ l' := List.mem_of_find?_eq_some hfl'
      have hpb : p b = true := List.find?_some hfl'
      have hbl : b ∈ l := (hperm.mem_iff).mpr hb
      have := List.find?_eq_none.mp hfl b hbl
      exact absurd hpb this
  | some a =>
    have ha : a ∈ l := List.mem_of_find?_eq_some hfl
    have hpa : p a = true := List.find?_some hfl
    cases hfl' : l'.find? p with
    | none =>
      have hal : a ∈ l' := (hperm.mem_iff).mp ha
      have := List.find?_eq_none.mp hfl' a hal
      exact absurd hpa this
    | some b =>
      have hb : b ∈ l' := List.mem_of_find?_eq_some hfl'
      have hpb : p b = true := List.find?_some hfl'
      have hbl : b ∈ l := (hperm.mem_iff).mpr hb
      rw [huniq a ha b hbl hpa hpb]

/-! ## Helper lemmas about the redemption operation -/

/-- A parse success forces a nonempty payload (the handler's separate
`!qrData` guard therefore cannot fire). -/
theorem parse_ne_nil {qr qrId bId : JStr} {p : Int}
    (hp : parseQRData qr = some (qrId, bId, p)) : ¬ qr = [] := by
  intro h
  rw [h] at hp
  exact Option.noConfusion hp

/-- When `findByIdAndIncPoints` reports no customer, it leaves the store
untouched. -/
theorem findByIdAndIncPoints_none_state (st : Store) (u : JStr) (pts : Int)
    (h : (findByIdAndIncPoints st u pts).1 = none) :
    (findByIdAndIncPoints st u pts).2 = st := by
  unfold findByIdAndIncPoints at h ⊢
  cases hc : st.customers.find? (fun c => c.id == u)
  · simp [hc]
  · simp [hc] at h

/-- Full evaluation of a successful redemption: the response fields and
the exact final store. -/
theorem scan_success_eq (st : Store) (uid qr qrId bId : JStr) (p : Int)
    (b : QRBatchRec) (q : QRItem) (c : CustomerRec)
    (hp : parseQRData qr = some (qrId, bId, p))
    (hb : st.batches.find? (fun x => x.batchId == bId && x.isActive) = some b)
    (hq : b.qrCodes.find? (fun x => x.qrId == qrId) = some q)
    (hs : q.isScanned = false)
    (hc : st.customers.find? (fun x => x.id == uid) = some c) :
    scanQR st uid qr =
      (.success p (c.points + p) qrId bId,
       markScanned
         { st with customers := updateFirst (fun x => x.id == uid) (incPts p) st.customers }
         bId qrId) := by
  unfold scanQR loadPhase commitPhase findByIdAndIncPoints
  simp [if_neg (parse_ne_nil hp), hp, hb, hq, hs, hc, incPts]

/-- After a successful redemption the batch lookup finds the saved batch,
whose code list has the redeemed entry marked scanned. -/
theorem find_batch_after_markScanned (st : Store) (bId qrId : JStr) (b : QRBatchRec)
    (hb : st.batches.find? (fun x => x.batchId == bId && x.isActive) = some b) :
    (markScanned st bId qrId).batches.find? (fun x => x.batchId == bId && x.isActive)
      = some { b with qrCodes := updateFirst (fun x => x.qrId == qrId) setScanned b.qrCodes } := by
  unfold markScanned
  exact find?_updateFirst_self _
    (fun y => { y with qrCodes := updateFirst (fun x => x.qrId == qrId) setScanned y.qrCodes })
    (fun a ha => ha) st.batches b hb

/-- Looking the redeemed code up in the saved batch yields it marked
scanned. -/
theorem find_code_after_markScanned (b : QRBatchRec) (qrId : JStr) (q : QRItem)
    (hq : b.qrCodes.find? (fun x => x.qrId == qrId) = some q) :
    (updateFirst (fun x => x.qrId == qrId) setScanned b.qrCodes).find?
        (fun x => x.qrId == qrId) = some (setScanned q) :=
  find?_updateFirst_self (fun x => x.qrId == qrId) setScanned (fun _ ha => ha) b.qrCodes q hq

/-- A redemption on a store whose looked-up code is already scanned is
rejected with no state change. -/
theorem scan_already_scanned (st : Store) (uid qr qrId bId : JStr) (p : Int)
    (b : QRBatchRec) (q : QRItem)
    (hp : parseQRData qr = some (qrId, bId, p))
    (hb : st.batches.find? (fun x => x.batchId == bId && x.isActive) = some b)
    (hq : b.qrCodes.find? (fun x => x.qrId == qrId) = some q)
    (hs : q.isScanned = true) :
    scanQR st uid qr = (.alreadyRedeemed, st) := by
  unfold scanQR loadPhase
  simp [if_neg (parse_ne_nil hp), hp, hb, hq, hs]

/-! ## Claim theorems -/

/-- C1: sequential non-idempotence of redeem.  For every customer and
every `(batchId, qrId)` pair identifying an unredeemed code in an active
batch, the first run of the redeem operation with a well-formed payload
succeeds, the second returns `AlreadyRedeemed` on an unchanged store, and
every further iteration leaves that store fixed, so the balance is
credited with the payload's point value exactly once across all runs. -/
theorem redeem_not_idempotent (st : Store) (uid qr qrId bId : JStr) (p : Int)
    (b : QRBatchRec) (q : QRItem) (c : CustomerRec)
    (hp : parseQRData qr = some (qrId, bId, p))
    (hb : st.batches.find? (fun x => x.batchId == bId && x.isActive) = some b)
    (hq : b.qrCodes.find? (fun x => x.qrId == qrId) = some q)
    (hs : q.isScanned = false)
    (hc : st.customers.find? (fun x => x.id == uid) = some c) :
    (scanQR st uid qr).1 = .success p (c.points + p) qrId bId ∧
    scanQR (scanQR st uid qr).2 uid qr = (.alreadyRedeemed, (scanQR st uid qr).2) ∧
    custBalance (scanQR st uid qr).2 uid = some (c.points + p) ∧
    ∀ n, scanIter uid qr n (scanQR st uid qr).2 = (scanQR st uid qr).2 := by
  have h1 := scan_success_eq st uid qr qrId bId p b q c hp hb hq hs hc
  have hb2 := find_batch_after_markScanned
    { st with customers := updateFirst (fun x => x.id == uid) (incPts p) st.customers }
    bId qrId b hb
  have hq2 := find_code_after_markScanned b qrId q hq
  have h2 : scanQR (scanQR st uid qr).2 uid qr = (.alreadyRedeemed, (scanQR st uid qr).2) := by
    rw [h1]
    exact scan_already_scanned _ uid qr qrId bId p _ (setScanned q) hp hb2 hq2 rfl
  refine ⟨by rw [h1], h2, ?_, ?_⟩
  · have hc2 := find?_updateFirst_self (fun x => x.id == uid) (incPts p)
      (fun _ ha => ha) st.customers c hc
    rw [h1]
    simp [custBalance, markScanned, hc2, incPts]
  · intro n
    induction n with
    | zero => rfl
    | succ m ihm =>
      have h2b : (scanQR (scanQR st uid qr).2 uid qr).2 = (scanQR st uid qr).2 := by
        rw [h2]
      simp only [scanIter, h2b]
      exact ihm

/-- Witness for C1 at a concrete store and payload: the first scan earns
50 points, the second is rejected `AlreadyRedeemed` with the store
unchanged, and three further iterations leave it fixed. -/
theorem redeem_not_idempotent_w :
    (scanQR store0 ("c1".toList) payload0).1
        = RedeemResult.success 50 50 ("Q1".toList) ("B1".toList) ∧
    scanQR (scanQR store0 ("c1".toList) payload0).2 ("c1".toList) payload0
        = (RedeemResult.alreadyRedeemed, (scanQR store0 ("c1".toList) payload0).2) ∧
    custBalance (scanQR store0 ("c1".toList) payload0).2 ("c1".toList) = some 50 ∧
    scanIter ("c1".toList) payload0 3 (scanQR store0 ("c1".toList) payload0).2
        = (scanQR store0 ("c1".toList) payload0).2 := by
  have h := redeem_not_idempotent store0 ("c1".toList) payload0 ("Q1".toList) ("B1".toList) 50
    batch0 item0 cust0 (by decide) (by decide) (by decide) (by decide) (by decide)
  exact ⟨h.1, h.2.1, h.2.2.1, h.2.2.2 3⟩

/-- C3: atomicity of rejections.  Whenever a scan request ends in
`MalformedPayload`, `BatchNotFound`, `CodeNotFound`, `AlreadyRedeemed` or
`CustomerNotFound`, the store — so in particular every points balance and
every `isScanned` flag — is left exactly as it was; in particular a
missing customer record does not mark the code consumed. -/
theorem reject_no_mutation (st : Store) (uid qr : JStr)
    (h : (scanQR st uid qr).1 = .malformedPayload ∨
         (scanQR st uid qr).1 = .batchNotFound ∨
         (scanQR st uid qr).1 = .codeNotFound ∨
         (scanQR st uid qr).1 = .alreadyRedeemed ∨
         (scanQR st uid qr).1 = .customerNotFound) :
    (scanQR st uid qr).2 = st := by
  unfold scanQR at h ⊢
  cases hl : loadPhase st qr with
  | error e => simp [hl]
  | ok v =>
    obtain ⟨qrId, bId, pts⟩ := v
    simp only [hl] at h ⊢
    unfold commitPhase at h ⊢
    rcases hf : findByIdAndIncPoints st uid pts with ⟨o, st1⟩
    cases o with
    | none =>
      simp only [hf]
      have hfst : (findByIdAndIncPoints st uid pts).1 = none := by rw [hf]
      have h2 := findByIdAndIncPoints_none_state st uid pts hfst
      rw [hf] at h2
      exact h2
    | some c => simp [hf] at h

/-- Witness for C3: a malformed payload is rejected and the concrete store
is returned untouched. -/
theorem reject_no_mutation_w :
    (scanQR store0 ("c1".toList) ("garbage".toList)).1 = RedeemResult.malformedPayload ∧
    (scanQR store0 ("c1".toList) ("garbage".toList)).2 = store0 :=
  ⟨by decide, reject_no_mutation store0 ("c1".toList) ("garbage".toList) (Or.inl (by decide))⟩

/-- C4: success postcondition of redeem.  For every well-formed payload
referencing an unredeemed code in an active batch, scanned by an existing
customer, the operation succeeds; the response carries the payload's
point value as the points earned, the customer's new total
`c.points + p`, and the resolved `qrId` and `batchId`; the balance in the
store increases by exactly `p`; and the code's `isScanned` becomes
true. -/
theorem redeem_success_postcondition (st : Store) (uid qr qrId bId : JStr) (p : Int)
    (b : QRBatchRec) (q : QRItem) (c : CustomerRec)
    (hp : parseQRData qr = some (qrId, bId, p))
    (hb : st.batches.find? (fun x => x.batchId == bId && x.isActive) = some b)
    (hq : b.qrCodes.find? (fun x => x.qrId == qrId) = some q)
    (hs : q.isScanned = false)
    (hc : st.customers.find? (fun x => x.id == uid) = some c) :
    (scanQR st uid qr).1 = .success p (c.points + p) qrId bId ∧
    custBalance (scanQR st uid qr).2 uid = some (c.points + p) ∧
    codeScanned (scanQR st uid qr).2 bId qrId = true := by
  have h1 := scan_success_eq st uid qr qrId bId p b q c hp hb hq hs hc
  have hb2 := find_batch_after_markScanned
    { st with customers := updateFirst (fun x => x.id == uid) (incPts p) st.customers }
    bId qrId b hb
  have hq2 := find_code_after_markScanned b qrId q hq
  refine ⟨by rw [h1], ?_, ?_⟩
  · have hc2 := find?_updateFirst_self (fun x => x.id == uid) (incPts p)
      (fun _ ha => ha) st.customers c hc
    rw [h1]
    simp [custBalance, markScanned, hc2, incPts]
  · rw [h1]
    simp [codeScanned, hb2, hq2, setScanned]

/-- Witness for C4: the concrete scan earns 50 points, stores balance 50,
and flips the code's flag. -/
theorem redeem_success_postcondition_w :
    (scanQR store0 ("c1".toList) payload0).1
        = RedeemResult.success 50 50 ("Q1".toList) ("B1".toList) ∧
    custBalance (scanQR store0 ("c1".toList) payload0).2 ("c1".toList) = some 50 ∧
    codeScanned (scanQR store0 ("c1".toList) payload0).2 ("B1".toList) ("Q1".toList) = true :=
  redeem_success_postcondition store0 ("c1".toList) payload0 ("Q1".toList) ("B1".toList) 50
    batch0 item0 cust0 (by decide) (by decide) (by decide) (by decide) (by decide)

/-- C6: batch gating.  When every batch carrying the payload's `batchId`
has `isActive = false`, the scan is rejected with `BatchNotFound` (the
handler's "QR batch not found or inactive") and the store is unchanged,
regardless of the `isScanned` values of the batch's codes — such a code
is never redeemable. -/
theorem inactive_batch_rejected (st : Store) (uid qr qrId bId : JStr) (p : Int)
    (hp : parseQRData qr = some (qrId, bId, p))
    (hin : ∀ b ∈ st.batches, (b.batchId == bId) = true → b.isActive = false) :
    scanQR st uid qr = (.batchNotFound, st) := by
  have hfind : st.batches.find? (fun b => b.batchId == bId && b.isActive) = none := by
    rw [List.find?_eq_none]
    intro b hbmem hcontra
    rw [Bool.and_eq_true] at hcontra
    have hfalse := hin b hbmem hcontra.1
    rw [hfalse] at hcontra
    exact Bool.false_ne_true hcontra.2
  unfold scanQR loadPhase
  simp [if_neg (parse_ne_nil hp), hp, hfind]

/-- An inactive batch holding one fresh and one already-scanned code. -/
def batchInactive : QRBatchRec :=
  { batchId := "B1".toList, isActive := false,
    qrCodes := [item0, { qrId := "Q2".toList, qrCodeUrl := "u".toList, isScanned := true }] }

/-- A store whose only batch is inactive. -/
def storeInactive : Store := { customers := [cust0], batches := [batchInactive] }

/-- Witness for C6: scanning a code of the concrete inactive batch is
rejected with `BatchNotFound` and no state change. -/
theorem inactive_batch_rejected_w :
    scanQR storeInactive ("c1".toList) payload0 = (RedeemResult.batchNotFound, storeInactive) :=
  inactive_batch_rejected storeInactive ("c1".toList) payload0 ("Q1".toList) ("B1".toList) 50
    (by decide) (by decide)

/-- C2 (exhibiting the code's race): with one customer, one active batch
and one fresh code worth 50 points, the interleaving in which both
requests perform their batch load before either commits makes BOTH
requests succeed and credits the balance twice (to 100) — rather than
the claimed single success with N−1 `AlreadyRedeemed` rejections and a
single credit, which would require the read-check-mark sequence to be
one atomic conditional update instead of the handler's separate
read-then-write calls. -/
theorem concurrent_double_redeem :
    (twoInterleaved store0 ("c1".toList) ("c1".toList) payload0 payload0).1
        = RedeemResult.success 50 50 ("Q1".toList) ("B1".toList) ∧
    (twoInterleaved store0 ("c1".toList) ("c1".toList) payload0 payload0).2.1
        = RedeemResult.success 50 100 ("Q1".toList) ("B1".toList) ∧
    custBalance (twoInterleaved store0 ("c1".toList) ("c1".toList) payload0 payload0).2.2
        ("c1".toList) = some 100 :=
  ⟨by decide, by decide, by decide⟩

/-- Marking a code scanned in some batch never turns a scanned entry back
into an unscanned one, at any position. -/
theorem scannedAtL_mark (P : QRBatchRec → Bool) (Q : QRItem → Bool)
    (bs : List QRBatchRec) (i j : Nat) (h : scannedAtL bs i j = true) :
    scannedAtL
      (updateFirst P (fun y => { y with qrCodes := updateFirst Q setScanned y.qrCodes }) bs)
      i j = true := by
  unfold scannedAtL getEntryL at h ⊢
  rcases updateFirst_getElem? P
      (fun y => { y with qrCodes := updateFirst Q setScanned y.qrCodes }) bs i with
    hsame | ⟨b, hb1, hb2⟩
  · rw [hsame]; exact h
  · rw [hb2]
    rw [hb1] at h
    simp only [Option.some_bind] at h ⊢
    rcases updateFirst_getElem? Q setScanned b.qrCodes j with h2 | ⟨qq, hq1, hq2⟩
    · simp only [h2]
      exact h
    · simp [hq2, setScanned]

/-- No single operation of the system reverts a scanned entry. -/
theorem scannedAt_applyOp (st : Store) (op : SysOp) (i j : Nat)
    (h : scannedAt st i j = true) : scannedAt (applyOp st op) i j = true := by
  cases op with
  | register c => exact h
  | adjust u p o =>
    unfold applyOp adjustPoints
    cases hc : st.customers.find? (fun c => c.username == u)
    · simpa [hc] using h
    · simpa [hc] using h
  | scan u qr =>
    unfold applyOp scanQR
    cases hl : loadPhase st qr with
    | error e => simpa [hl] using h
    | ok v =>
      obtain ⟨qrId, bId, pts⟩ := v
      simp only [hl]
      unfold commitPhase findByIdAndIncPoints
      cases hc : st.customers.find? (fun c => c.id == u)
      · simpa [hc] using h
      · simp only [hc]
        exact scannedAtL_mark (fun b => b.batchId == bId && b.isActive)
          (fun q => q.qrId == qrId) st.batches i j h

/-- C5: the one-way `isScanned` invariant.  Under every sequence of the
system's state-mutating operations (scans, administrative adjustments,
registrations), an entry that is marked scanned stays present and marked
scanned: the flag only ever moves from false to true — necessarily at
most once for a boolean — and no reachable operation sequence resets
it. -/
theorem scanned_one_way (st : Store) (ops : List SysOp) (i j : Nat)
    (h : scannedAt st i j = true) : scannedAt (applyOps st ops) i j = true := by
  induction ops generalizing st with
  | nil => exact h
  | cons op rest ih => exact ih (applyOp st op) (scannedAt_applyOp st op i j h)

/-- A store whose single code is already scanned. -/
def storeScanned : Store :=
  { customers := [cust0],
    batches := [{ batchId := "B1".toList, isActive := true,
                  qrCodes := [{ qrId := "Q1".toList, qrCodeUrl := "u".toList,
                                isScanned := true }] }] }

/-- Witness for C5: after a further scan attempt, an adjustment and a
registration, the concrete scanned entry is still scanned. -/
theorem scanned_one_way_w :
    scannedAt storeScanned 0 0 = true ∧
    scannedAt (applyOps storeScanned
      [SysOp.scan ("c1".toList) payload0,
       SysOp.adjust ("u1".toList) 5 PointsOp.add,
       SysOp.register cust0]) 0 0 = true :=
  ⟨by decide, scanned_one_way storeScanned _ 0 0 (by decide)⟩

/-- A customer with balance 5 for the adjustment counterexample. -/
def custN : CustomerRec :=
  { id := "c9".toList, name := "N".toList, username := "u9".toList, points := 5 }

/-- A store holding only `custN`. -/
def storeN : Store := { customers := [custN], batches := [] }

/-- C9 counterexample: the `add` operation applies no zero floor — with
balance 5 and delta −10 the handler computes, reports and stores −5, a
negative balance, refuting "the resulting balance is never negative" for
every mode and every numeric delta. -/
theorem adjust_add_negative :
    (adjustPoints storeN ("u9".toList) (-10) PointsOp.add).1
        = AdjustResult.ok 5 (-5) PointsOp.add ∧
    custPointsByUsername (adjustPoints storeN ("u9".toList) (-10) PointsOp.add).2 ("u9".toList)
        = some (-5) ∧
    (-5 : Int) < 0 :=
  ⟨by decide, by decide, by decide⟩

/-- C9 amended: for every existing customer and every integer delta,
`subtract` and `set` compute the new balance with a floor of zero
(subtraction below zero clamps to zero, `set` of a negative input clamps
to zero), so those two modes never yield a negative balance; `add`
applies the delta with no floor, so its result is nonnegative whenever
the starting balance and the delta are. -/
theorem adjust_floor_amended (st : Store) (u : JStr) (d : Int) (c : CustomerRec)
    (hc : st.customers.find? (fun x => x.username == u) = some c) :
    ((adjustPoints st u d .subtract).1 = .ok c.points (max 0 (c.points - d)) .subtract ∧
      custPointsByUsername (adjustPoints st u d .subtract).2 u = some (max 0 (c.points - d)) ∧
      0 ≤ max 0 (c.points - d)) ∧
    ((adjustPoints st u d .set).1 = .ok c.points (max 0 d) .set ∧
      custPointsByUsername (adjustPoints st u d .set).2 u = some (max 0 d) ∧
      0 ≤ max 0 d) ∧
    ((adjustPoints st u d .add).1 = .ok c.points (c.points + d) .add ∧
      custPointsByUsername (adjustPoints st u d .add).2 u = some (c.points + d) ∧
      (0 ≤ c.points → 0 ≤ d → 0 ≤ c.points + d)) := by
  have key : ∀ op : PointsOp,
      custPointsByUsername (adjustPoints st u d op).2 u = some (newBalance c.points d op) := by
    intro op
    have h2 := find?_updateFirst_self (fun x => x.username == u)
      (fun x => { x with points := newBalance c.points d op }) (fun _ ha => ha)
      st.customers c hc
    unfold adjustPoints
    simp only [hc]
    simp [custPointsByUsername, h2]
  unfold adjustPoints at *
  simp only [hc] at *
  exact ⟨⟨rfl, key .subtract, le_max_left 0 _⟩, ⟨rfl, key .set, le_max_left 0 _⟩,
         ⟨rfl, key .add, fun h1 h2 => add_nonneg h1 h2⟩⟩

/-- A customer with the spec example's starting balance 30. -/
def cust30 : CustomerRec :=
  { id := "c3".toList, name := "N".toList, username := "u3".toList, points := 30 }

/-- A store holding only `cust30`. -/
def store30 : Store := { customers := [cust30], batches := [] }

/-- Witness for the amended C9 at the spec's example: balance 30 with
`subtract` 100 clamps to 0, never negative; `set` clamps at zero too. -/
theorem adjust_floor_amended_w :
    (adjustPoints store30 ("u3".toList) 100 PointsOp.subtract).1
        = AdjustResult.ok 30 (max 0 (30 - 100)) PointsOp.subtract ∧
    max 0 ((30 : Int) - 100) = 0 ∧
    (adjustPoints store30 ("u3".toList) 100 PointsOp.set).1
        = AdjustResult.ok 30 (max 0 100) PointsOp.set := by
  have h := adjust_floor_amended store30 ("u3".toList) 100 cust30 (by decide)
  exact ⟨h.1.1, by decide, h.2.1.1⟩

/-! ## Lemmas about the string primitives -/

/-- `splitOnChar` never returns the empty list. -/
theorem splitOnChar_ne_nil (c : Char) (l : JStr) : splitOnChar c l ≠ [] := by
  cases l with
  | nil => simp [splitOnChar]
  | cons x xs =>
    unfold splitOnChar
    by_cases hx : (x == c) = true
    · simp [hx]
    · cases hs : splitOnChar c xs with
      | nil => simp [hx, hs]
      | cons s ss => simp [hx, hs]

/-- A list containing the separator splits into at least two segments. -/
theorem one_lt_length_splitOnChar (c : Char) :
    ∀ l : JStr, c ∈ l → 1 < (splitOnChar c l).length := by
  intro l
  induction l with
  | nil => intro h; simp at h
  | cons x xs ih =>
    intro h
    unfold splitOnChar
    by_cases hx : (x == c) = true
    · rw [if_pos hx]
      cases hs : splitOnChar c xs with
      | nil => exact absurd hs (splitOnChar_ne_nil c xs)
      | cons s ss =>
        simp only [List.length_cons]
        omega
    · rw [if_neg hx]
      have hxs : c ∈ xs := by
        rcases List.mem_cons.mp h with h1 | h2
        · exfalso; apply hx; rw [h1]; exact beq_self_eq_true x
        · exact h2
      have hlen := ih hxs
      cases hs : splitOnChar c xs with
      | nil => exact absurd hs (splitOnChar_ne_nil c xs)
      | cons s ss =>
        rw [hs] at hlen
        show 1 < ((x :: s) :: ss).length
        simp only [List.length_cons] at hlen ⊢
        omega

/-- Second element of a list of length at least two. -/
theorem getElem?_one_of_one_lt {α : Type} (xs : List α) (h : 1 < xs.length) :
    ∃ v, xs[1]? = some v := by
  match xs with
  | [] => simp at h
  | [a] => simp at h
  | a :: b :: t => exact ⟨b, by simp⟩

/-- Splitting after prepending separator-free characters extends the first
segment and keeps the rest. -/
theorem splitOnChar_append_no_sep (c : Char) :
    ∀ (a l : JStr), c ∉ a →
      ∃ s ss, splitOnChar c l = s :: ss ∧ splitOnChar c (a ++ l) = (a ++ s) :: ss := by
  intro a
  induction a with
  | nil =>
    intro l _
    cases hs : splitOnChar c l with
    | nil => exact absurd hs (splitOnChar_ne_nil c l)
    | cons s ss => exact ⟨s, ss, rfl, by simpa using hs⟩
  | cons x xs ih =>
    intro l hna
    have hx : (x == c) = false := by
      rw [beq_eq_false_iff_ne]
      intro hcon
      exact hna (by rw [hcon]; exact List.mem_cons_self c xs)
    have hxs : c ∉ xs := fun hmem => hna (List.mem_cons_of_mem x hmem)
    obtain ⟨s, ss, h1, h2⟩ := ih l hxs
    refine ⟨s, ss, h1, ?_⟩
    show splitOnChar c (x :: (xs ++ l)) = ((x :: xs) ++ s) :: ss
    unfold splitOnChar
    rw [if_neg (by simp [hx])]
    rw [h2]
    simp

/-- Splitting at a leading separator yields an empty first segment. -/
theorem splitOnChar_cons_sep (c : Char) (l : JStr) :
    splitOnChar c (c :: l) = [] :: splitOnChar c l := by
  conv_lhs => unfold splitOnChar
  simp

/-- `dropWhile` over an append. -/
theorem dropWhile_append_split (p : Char → Bool) :
    ∀ (l m : JStr), (l ++ m).dropWhile p =
      if (l.dropWhile p).isEmpty then m.dropWhile p else l.dropWhile p ++ m := by
  intro l
  induction l with
  | nil => intro m; simp
  | cons x xs ih =>
    intro m
    by_cases hx : p x = true
    · simp [List.dropWhile_cons, hx, ih m]
    · simp [List.dropWhile_cons, hx]

/-- Leading whitespace is invisible to `trimLeftChars`. -/
theorem trimLeftChars_ws_append (w l : JStr) (h : w.all jsWhitespaceChar = true) :
    trimLeftChars (w ++ l) = trimLeftChars l := by
  unfold trimLeftChars
  rw [dropWhile_append_split]
  have hw : w.dropWhile jsWhitespaceChar = [] := by
    rw [List.dropWhile_eq_nil_iff]
    intro x hx
    exact List.all_eq_true.mp h x hx
  simp [hw]

/-- Trailing whitespace is invisible to `trimRightChars`. -/
theorem trimRightChars_append_ws (l w : JStr) (h : w.all jsWhitespaceChar = true) :
    trimRightChars (l ++ w) = trimRightChars l := by
  unfold trimRightChars
  rw [List.reverse_append, dropWhile_append_split]
  have hrev : w.reverse.dropWhile jsWhitespaceChar = [] := by
    rw [List.dropWhile_eq_nil_iff]
    intro x hx
    exact List.all_eq_true.mp h x (List.mem_reverse.mp hx)
  simp [hrev]

/-- `trim` ignores whitespace padding on both sides. -/
theorem trimChars_pad (w1 w2 l : JStr)
    (h1 : w1.all jsWhitespaceChar = true) (h2 : w2.all jsWhitespaceChar = true) :
    trimChars (w1 ++ l ++ w2) = trimChars l := by
  unfold trimChars
  rw [List.append_assoc, trimLeftChars_ws_append w1 (l ++ w2) h1]
  unfold trimLeftChars
  rw [dropWhile_append_split]
  by_cases hc : (l.dropWhile jsWhitespaceChar).isEmpty = true
  · rw [if_pos hc]
    have hl : l.dropWhile jsWhitespaceChar = [] := by
      cases hdef : l.dropWhile jsWhitespaceChar
      · rfl
      · rw [hdef] at hc; simp at hc
    have hw2 : w2.dropWhile jsWhitespaceChar = [] := by
      rw [List.dropWhile_eq_nil_iff]
      intro x hx
      exact List.all_eq_true.mp h2 x hx
    rw [hw2, hl]
  · rw [if_neg hc]
    exact trimRightChars_append_ws _ w2 h2

/-- Membership survives `dropWhile`. -/
theorem mem_of_mem_dropWhile (p : Char → Bool) :
    ∀ (l : JStr) (a : Char), a ∈ l.dropWhile p → a ∈ l := by
  intro l
  induction l with
  | nil => intro a h; simp at h
  | cons x xs ih =>
    intro a h
    by_cases hx : p x = true
    · rw [List.dropWhile_cons, if_pos hx] at h
      exact List.mem_cons_of_mem x (ih a h)
    · rw [List.dropWhile_cons, if_neg hx] at h
      exact h

/-- Membership survives `trim`. -/
theorem mem_of_mem_trimChars (l : JStr) (a : Char) (h : a ∈ trimChars l) : a ∈ l := by
  unfold trimChars trimRightChars trimLeftChars at h
  have h1 : a ∈ (l.dropWhile jsWhitespaceChar).reverse.dropWhile jsWhitespaceChar :=
    List.mem_reverse.mp h
  have h2 : a ∈ (l.dropWhile jsWhitespaceChar).reverse := mem_of_mem_dropWhile _ _ a h1
  have h3 : a ∈ l.dropWhile jsWhitespaceChar := List.mem_reverse.mp h2
  exact mem_of_mem_dropWhile _ _ a h3

/-- A `isPrefixOf` hit is a subset at the membership level. -/
theorem mem_of_isPrefixOf :
    ∀ (l1 l2 : JStr), l1.isPrefixOf l2 = true → ∀ a ∈ l1, a ∈ l2 := by
  intro l1
  induction l1 with
  | nil => intro l2 h a ha; simp at ha
  | cons x xs ih =>
    intro l2 h a ha
    cases l2 with
    | nil => simp [List.isPrefixOf] at h
    | cons y ys =>
      simp only [List.isPrefixOf, Bool.and_eq_true] at h
      have hxy : x = y := by
        have := h.1
        rwa [beq_iff_eq] at this
      rcases List.mem_cons.mp ha with h1 | h2
      · rw [h1, hxy]; exact List.mem_cons_self y ys
      · exact List.mem_cons_of_mem y (ih ys h.2 a h2)

/-- Every line matching a label (all labels contain a colon) has a second
colon-segment, so `fieldValue` cannot fail on it. -/
theorem fieldValue_some_of_hasLabel (L line : JStr) (hL : ':' ∈ L)
    (h : hasLabel L line = true) : ∃ v, fieldValue line = some v := by
  have hmem : ':' ∈ line := by
    have h1 : ':' ∈ trimChars line := mem_of_isPrefixOf L (trimChars line) h ':' hL
    exact mem_of_mem_trimChars line ':' h1
  have hlen := one_lt_length_splitOnChar ':' line hmem
  obtain ⟨v, hv⟩ := getElem?_one_of_one_lt _ hlen
  exact ⟨trimChars v, by unfold fieldValue; rw [hv]⟩

/-- C7 counterexample: the payload whose points field is `0x10` — not a
base-10 integer literal — is NOT rejected: the handler's bare `parseInt`
reads it as hexadecimal 16 and the parse succeeds, refuting "signals
MalformedPayload exactly when … the points field does not parse as a
base-10 integer …". -/
theorem parse_accepts_non_base10 :
    isBase10Int ("0x10".toList) = false ∧
    parseQRData ("QR ID: A1\nBatch ID: B1\nPoints: 0x10".toList)
      = some ("A1".toList, "B1".toList, 16) :=
  ⟨by decide, by decide⟩

/-- C7 amended: the parser fails (returns no result at all — never a
partial one) exactly when one of the three required label lines is
absent, or when JS `parseInt` on the trimmed points value finds no digits
(after an optional sign and an optional hexadecimal `0x`/`0X` prefix), or
when the parsed integer is ≤ 0.  In particular `Points: 0` and
`Points: -5` fail, while values with trailing junk or a hex prefix are
accepted. -/
theorem parse_failure_iff (s : JStr) :
    parseQRData s = none ↔
      ((splitOnChar '\n' s).find? (hasLabel qrLabel) = none ∨
       (splitOnChar '\n' s).find? (hasLabel batchLabel) = none ∨
       (splitOnChar '\n' s).find? (hasLabel ptsLabel) = none ∨
       ∃ lp, (splitOnChar '\n' s).find? (hasLabel ptsLabel) = some lp ∧
         ∃ pv, fieldValue lp = some pv ∧
           (jsParseInt pv = none ∨ ∃ n, jsParseInt pv = some n ∧ n ≤ 0)) := by
  unfold parseQRData parseLines
  cases hq : (splitOnChar '\n' s).find? (hasLabel qrLabel) with
  | none => simp [hq]
  | some lq =>
    cases hb : (splitOnChar '\n' s).find? (hasLabel batchLabel) with
    | none => simp [hb]
    | some lb =>
      cases hp : (splitOnChar '\n' s).find? (hasLabel ptsLabel) with
      | none => simp [hp]
      | some lp =>
        obtain ⟨qv, hqv⟩ :=
          fieldValue_some_of_hasLabel qrLabel lq (by decide) (List.find?_some hq)
        obtain ⟨bv, hbv⟩ :=
          fieldValue_some_of_hasLabel batchLabel lb (by decide) (List.find?_some hb)
        obtain ⟨pv, hpv⟩ :=
          fieldValue_some_of_hasLabel ptsLabel lp (by decide) (List.find?_some hp)
        show (match fieldValue lq, fieldValue lb, fieldValue lp with
              | some qv0, some bv0, some pv0 =>
                match jsParseInt pv0 with
                | none => none
                | some n => if n ≤ 0 then none else some (qv0, bv0, n)
              | _, _, _ => none) = none ↔ _
        rw [hqv, hbv, hpv]
        show (match jsParseInt pv with
              | none => none
              | some n => if n ≤ 0 then none else some (qv, bv, n)) = none ↔ _
        cases hpi : jsParseInt pv with
        | none =>
          exact iff_of_true rfl (Or.inr (Or.inr (Or.inr ⟨lp, rfl, pv, hpv, Or.inl hpi⟩)))
        | some n =>
          show (if n ≤ 0 then none else some (qv, bv, n)) = none ↔ _
          by_cases hn : n ≤ 0
          · rw [if_pos hn]
            exact iff_of_true rfl
              (Or.inr (Or.inr (Or.inr ⟨lp, rfl, pv, hpv, Or.inr ⟨n, hpi, hn⟩⟩)))
          · rw [if_neg hn]
            refine iff_of_false (by simp) ?_
            rintro (h1 | h2 | h3 | ⟨lp2, hlp2, pv2, hpv2, hbad⟩)
            · exact Option.noConfusion h1
            · exact Option.noConfusion h2
            · exact Option.noConfusion h3
            · have e1 : lp = lp2 := Option.some.inj hlp2
              rw [← e1] at hpv2
              have e2 : pv = pv2 := Option.some.inj (hpv.symm.trans hpv2)
              rw [← e2] at hbad
              rcases hbad with hbad1 | ⟨n2, hn2, hle⟩
              · rw [hpi] at hbad1; exact Option.noConfusion hbad1
              · rw [hpi] at hn2
                rw [← Option.some.inj hn2] at hle
                exact hn hle

/-- Witness for the amended C7: the payload with `Points: 0` has all three
label lines but a nonpositive parsed value, so the parser rejects it. -/
theorem parse_failure_iff_w :
    parseQRData ("QR ID: A1\nBatch ID: B1\nPoints: 0".toList) = none :=
  (parse_failure_iff ("QR ID: A1\nBatch ID: B1\nPoints: 0".toList)).mpr
    (Or.inr (Or.inr (Or.inr
      ⟨"Points: 0".toList, by decide, "0".toList, by decide,
       Or.inr ⟨0, by decide, le_refl 0⟩⟩)))

/-- C8 counterexample: the claim says the leading label token is matched
case-insensitively, so the payload written `qr id:` would parse; the
handler's `startsWith('QR ID:')` is case-sensitive and the parse is
rejected as malformed. -/
theorem parse_lowercase_label_rejected :
    parseQRData ("qr id: A1\nBatch ID: B1\nPoints: 50".toList) = none := by decide

/-- C8 amended: label-matching conventions of the parser, with the label
token matched case-SENSITIVELY: (1) a payload that already parses is
unaffected by extra lines appended after it — for a duplicated label the
first matching line wins; (2) when each label matches at most one line,
any reordering of the lines parses identically; (3) matching a label on a
line is unaffected by whitespace padding on either side of the line, and
values are trimmed on both sides (concrete conjunct 4); (5) a duplicated
label takes the first matching line; (6) labels are accepted in any line
order; (7) a payload differing only in label case is rejected. -/
theorem parse_label_conventions :
    (∀ (ls extra : List JStr) (t : JStr × JStr × Int),
      parseLines ls = some t → parseLines (ls ++ extra) = some t) ∧
    (∀ ls ls2 : List JStr, ls.Perm ls2 →
      (∀ x ∈ ls, ∀ y ∈ ls, hasLabel qrLabel x = true → hasLabel qrLabel y = true → x = y) →
      (∀ x ∈ ls, ∀ y ∈ ls, hasLabel batchLabel x = true → hasLabel batchLabel y = true → x = y) →
      (∀ x ∈ ls, ∀ y ∈ ls, hasLabel ptsLabel x = true → hasLabel ptsLabel y = true → x = y) →
      parseLines ls = parseLines ls2) ∧
    (∀ L w1 w2 l : JStr, w1.all jsWhitespaceChar = true → w2.all jsWhitespaceChar = true →
      hasLabel L (w1 ++ l ++ w2) = hasLabel L l) ∧
    parseQRData ("  QR ID:   A1  \nBatch ID:\t B1\nPoints:  50  ".toList)
      = some ("A1".toList, "B1".toList, 50) ∧
    parseQRData ("QR ID: A1\nQR ID: ZZ\nBatch ID: B1\nPoints: 50\nPoints: 7".toList)
      = some ("A1".toList, "B1".toList, 50) ∧
    parseQRData ("Points: 50\nQR ID: A1\nBatch ID: B1".toList)
      = some ("A1".toList, "B1".toList, 50) ∧
    parseQRData ("QR Id: A1\nBatch ID: B1\nPoints: 50".toList) = none := by
  refine ⟨?_, ?_, ?_, by decide, by decide, by decide, by decide⟩
  · intro ls extra t h
    unfold parseLines at h ⊢
    cases hq : ls.find? (hasLabel qrLabel) with
    | none => rw [hq] at h; simp at h
    | some lq =>
      cases hb : ls.find? (hasLabel batchLabel) with
      | none => rw [hq, hb] at h; simp at h
      | some lb =>
        cases hp : ls.find? (hasLabel ptsLabel) with
        | none => rw [hq, hb, hp] at h; simp at h
        | some lp =>
          rw [hq, hb, hp] at h
          rw [find?_append_some _ lq ls extra hq, find?_append_some _ lb ls extra hb,
              find?_append_some _ lp ls extra hp]
          exact h
  · intro ls ls2 hperm hu1 hu2 hu3
    have e1 := find?_perm_of_unique (hasLabel qrLabel) ls ls2 hperm hu1
    have e2 := find?_perm_of_unique (hasLabel batchLabel) ls ls2 hperm hu2
    have e3 := find?_perm_of_unique (hasLabel ptsLabel) ls ls2 hperm hu3
    unfold parseLines
    rw [e1, e2, e3]
  · intro L w1 w2 l h1 h2
    unfold hasLabel
    rw [trimChars_pad w1 w2 l h1 h2]

/-- Witness for the amended C8: a parsed three-line payload keeps its
result when two further (duplicate-label) lines are appended, and a swap
of the first two lines parses identically. -/
theorem parse_label_conventions_w :
    parseLines
      (("QR ID: A".toList) :: ("Batch ID: B".toList) :: ("Points: 7".toList) ::
        (("Points: 9".toList) :: [("QR ID: Z".toList)]))
      = some ("A".toList, "B".toList, 7) ∧
    parseLines [("Batch ID: B".toList), ("QR ID: A".toList), ("Points: 7".toList)]
      = parseLines [("QR ID: A".toList), ("Batch ID: B".toList), ("Points: 7".toList)] :=
  ⟨parse_label_conventions.1
      [("QR ID: A".toList), ("Batch ID: B".toList), ("Points: 7".toList)]
      [("Points: 9".toList), ("QR ID: Z".toList)]
      ("A".toList, "B".toList, 7) (by decide),
   parse_label_conventions.2.1
      [("Batch ID: B".toList), ("QR ID: A".toList), ("Points: 7".toList)]
      [("QR ID: A".toList), ("Batch ID: B".toList), ("Points: 7".toList)]
      (List.Perm.swap _ _ _) (by decide) (by decide) (by decide)⟩

/-- C10: each field value is the trimmed text strictly between the first
and the second colon of its line — anything after a second colon inside
the value is silently dropped, because the field is extracted as
`line.split(':')[1]`.  The general statement covers every label-free
prefix `L`, colon-free value `v` and arbitrary remainder; the concrete
conjunct shows the claim's own examples, `A:B` truncating to `A` and
`http://x` truncating to `http`. -/
theorem colon_truncation :
    (∀ L v rest : JStr, ':' ∉ L → ':' ∉ v →
      fieldValue (L ++ ':' :: (v ++ ':' :: rest)) = some (trimChars v)) ∧
    parseQRData ("QR ID: A:B\nBatch ID: http://x\nPoints: 10".toList)
      = some ("A".toList, "http".toList, 10) := by
  refine ⟨?_, by decide⟩
  intro L v rest hL hv
  obtain ⟨s1, ss1, h1, h2⟩ := splitOnChar_append_no_sep ':' v (':' :: rest) hv
  rw [splitOnChar_cons_sep] at h1
  injection h1 with e1 e2
  rw [← e1, ← e2] at h2
  obtain ⟨s2, ss2, h3, h4⟩ := splitOnChar_append_no_sep ':' L (':' :: (v ++ ':' :: rest)) hL
  rw [splitOnChar_cons_sep, h2] at h3
  injection h3 with e3 e4
  rw [← e3, ← e4] at h4
  unfold fieldValue
  rw [h4]
  simp

/-- Witness for C10: the value segment `" A"` of a line whose value holds
a second colon is extracted and trimmed to `"A"`. -/
theorem colon_truncation_w :
    fieldValue ("QR ID".toList ++ ':' :: (" A".toList ++ ':' :: "B".toList))
      = some (trimChars (" A".toList)) ∧
    trimChars (" A".toList) = "A".toList :=
  ⟨colon_truncation.1 ("QR ID".toList) (" A".toList) ("B".toList) (by decide) (by decide),
   by decide⟩

end ScanApp
